import Mathlib

/-!
Verification development for the gale mod-manager data engine.

Shallow embedding of:
- the current relational schema and its trigger/cascade semantics
  (src/unnamed/part_001, src/src-tauri/migrations/1_initial.sql);
- the presentation-layer state module (src/src/lib/state/profile.svelte.ts);
- the dependency resolver and the catalog write `upsertPackage`, which are
  described in the design document but whose code is not present in the
  source tree (spec-modelled definitions, marked as such).

SQL UUIDs are modelled as `Nat`, BLOB/JSON payloads as `String`, timestamps
as `Nat`; none of these representations matters for any property proved here.
-/

namespace Gale

/-! ## Relational schema (src/unnamed/part_001) -/

structure GameRow where
  id : Nat
  name : String
  slug : String
  steam_dir_name : String
  steam_id : Nat
  mod_loader : String
  override_path : Option String
  is_favorite : Bool
deriving DecidableEq, Repr

structure PackageRow where
  id : Nat
  name : String
  owner : String
  description : String
  date_created : Nat
  has_nsfw_content : Bool
  is_deprecated : Bool
  is_pinned : Bool
  rating_score : Nat
  downloads : Nat
  donation_link : Option String
  latest_version_id : Nat
  game_id : Nat
deriving DecidableEq, Repr

/-- One row of the `packages_fts` full-text shadow table
(columns `package_id, name, description, owner`). -/
structure FtsRow where
  package_id : Nat
  name : String
  description : String
  owner : String
deriving DecidableEq, Repr

structure VersionRow where
  id : Nat
  package_id : Nat
  date_created : Nat
  downloads : Nat
  file_size : Nat
  is_active : Bool
  website_url : Option String
  major : Nat
  minor : Nat
  patch : Nat
deriving DecidableEq, Repr

structure DependencyRow where
  dependent_id : Nat
  owner : String
  name : String
  major : Nat
  minor : Nat
  patch : Nat
deriving DecidableEq, Repr

structure ProfileRow where
  id : Nat
  name : String
  path : String
  is_favorite : Bool
  launch_mode : Option String
  game_id : Nat
deriving DecidableEq, Repr

structure ProfileModRow where
  id : Nat
  profile_id : Nat
  enabled : Bool
  order_index : Nat
  source : String
deriving DecidableEq, Repr

/-- The database state: the tables of the current schema that the verified
properties mention (categories/settings are omitted; no property touches
them). -/
structure Db where
  games : List GameRow
  packages : List PackageRow
  packages_fts : List FtsRow
  versions : List VersionRow
  dependencies : List DependencyRow
  profiles : List ProfileRow
  profile_mods : List ProfileModRow
deriving DecidableEq, Repr

inductive SqlError where
  | primaryKey
  | foreignKey
  | badInput
deriving DecidableEq, Repr

/-- Projection of a package row to its full-text shadow row, exactly the
column list of the `insert_package_fts` trigger. -/
def projFts (p : PackageRow) : FtsRow :=
  ⟨p.id, p.name, p.description, p.owner⟩

/-- `INSERT INTO packages`: primary-key and `game_id` foreign-key checks,
then the row plus the `insert_package_fts` trigger side effect. -/
def insertPackage (db : Db) (p : PackageRow) : Except SqlError Db :=
  if db.games.all (fun g => g.id != p.game_id) then
    .error .foreignKey
  else if db.packages.any (fun q => q.id == p.id) then
    .error .primaryKey
  else
    .ok { db with
      packages := db.packages ++ [p],
      packages_fts := db.packages_fts ++ [projFts p] }

/-- `UPDATE packages SET ... WHERE id = target`, setting the full column
list to `row`'s values. A no-op when no row matches. Otherwise checks the
`game_id` foreign key and the primary key, then applies the row update and
the `update_package_fts` trigger, which rewrites the shadow rows with
`package_id = NEW.id` (exactly as written in the migration: NEW.id, not
OLD.id). -/
def updatePackage (db : Db) (target : Nat) (row : PackageRow) : Except SqlError Db :=
  if db.packages.all (fun q => q.id != target) then
    .ok db
  else if db.games.all (fun g => g.id != row.game_id) then
    .error .foreignKey
  else if row.id != target && db.packages.any (fun q => q.id == row.id) then
    .error .primaryKey
  else
    .ok { db with
      packages := db.packages.map (fun q => if q.id == target then row else q),
      packages_fts := db.packages_fts.map (fun r =>
        if r.package_id == row.id then
          { r with name := row.name, description := row.description, owner := row.owner }
        else r) }

/-- `DELETE FROM packages WHERE id = target`: the `delete_package_fts`
trigger removes the shadow row, `versions.package_id ... ON DELETE CASCADE`
removes the package's versions, and `dependencies.dependent_id ... ON
DELETE CASCADE` removes the edges declared by those versions. -/
def deletePackage (db : Db) (target : Nat) : Except SqlError Db :=
  let deadVersions := db.versions.filter (fun v => v.package_id == target)
  .ok { db with
    packages := db.packages.filter (fun q => q.id != target),
    packages_fts := db.packages_fts.filter (fun r => r.package_id != target),
    versions := db.versions.filter (fun v => v.package_id != target),
    dependencies := db.dependencies.filter (fun d =>
      !(deadVersions.any (fun v => v.id == d.dependent_id))) }

/-- `DELETE FROM games WHERE id = target`. `packages.game_id` references
games with no cascade action, so the delete fails while packages still
reference the game; `profiles.game_id ... ON DELETE CASCADE` removes the
game's profiles and, transitively, `profile_mods.profile_id ... ON DELETE
CASCADE` removes those profiles' mod rows. -/
def deleteGame (db : Db) (target : Nat) : Except SqlError Db :=
  if db.packages.any (fun p => p.game_id == target) then
    .error .foreignKey
  else
    let deadProfiles := db.profiles.filter (fun pr => pr.game_id == target)
    .ok { db with
      games := db.games.filter (fun g => g.id != target),
      profiles := db.profiles.filter (fun pr => pr.game_id != target),
      profile_mods := db.profile_mods.filter (fun m =>
        !(deadProfiles.any (fun pr => pr.id == m.profile_id))) }

/-- `DELETE FROM profiles WHERE id = target`: `profile_mods.profile_id ...
ON DELETE CASCADE` removes the profile's mod rows. -/
def deleteProfile (db : Db) (target : Nat) : Except SqlError Db :=
  .ok { db with
    profiles := db.profiles.filter (fun pr => pr.id != target),
    profile_mods := db.profile_mods.filter (fun m => m.profile_id != target) }

/-- `INSERT INTO dependencies`: the composite primary key
`(dependent_id, owner, name)` rejects a second edge from the same version
to the same owner+name; `dependent_id` references `versions`, but the
target of the edge is only the `(owner, name, major, minor, patch)`
columns — no foreign key to any package or version row. -/
def insertDependency (db : Db) (d : DependencyRow) : Except SqlError Db :=
  if db.dependencies.any (fun e =>
      e.dependent_id == d.dependent_id && e.owner == d.owner && e.name == d.name) then
    .error .primaryKey
  else if db.versions.all (fun v => v.id != d.dependent_id) then
    .error .foreignKey
  else
    .ok { db with dependencies := db.dependencies ++ [d] }

/-! ## Presentation-layer state (src/src/lib/state/profile.svelte.ts) -/

structure CommunityInfo where
  id : Nat
  name : String
deriving DecidableEq, Repr

structure ProfileInfo where
  id : Nat
  name : String
deriving DecidableEq, Repr

/-- `localStorage`: a browser key/value store that persists across process
restarts (the module itself reads it back at startup via
`getLocalStorageInt`). Modelled as an association list, latest binding
first. -/
def lsSet (store : List (String × String)) (key value : String) :
    List (String × String) :=
  (key, value) :: store.filter (fun kv => kv.1 != key)

def lsGet (store : List (String × String)) (key : String) : Option String :=
  (store.find? (fun kv => kv.1 == key)).map (fun kv => kv.2)

/-- `setLocalStorageInt(key, value)`: `localStorage.setItem(key, value.toString())`. -/
def setLocalStorageInt (store : List (String × String)) (key : String)
    (value : Nat) : List (String × String) :=
  lsSet store key (toString value)

/-- The module-level mutable state of profile.svelte.ts: the `Communities`
and `Profiles` singletons, the browser's `localStorage`, and the backend
relational store the module talks to only through `invoke`. -/
structure FrontendState where
  communitiesAll : List CommunityInfo
  communitiesActive : Option CommunityInfo
  profilesActive : Option ProfileInfo
  localStorage : List (String × String)
  db : Db
deriving DecidableEq, Repr

/-- `getCommunity(id)`: `communities.all.find((community) => community.id === id)!`.
The `!` is a type-level non-null assertion only; at runtime `find` returns
`undefined` when nothing matches, modelled as `none`. -/
def getCommunity (all : List CommunityInfo) (id : Nat) : Option CommunityInfo :=
  all.find? (fun c => c.id == id)

/-- `Communities.setActive(id)`: sets `active` to `getCommunity(id)` and then
stores `communities.active?.id ?? 1` under the `activeCommunity` key. -/
def communitiesSetActive (st : FrontendState) (id : Nat) : FrontendState :=
  let active := getCommunity st.communitiesAll id
  { st with
    communitiesActive := active,
    localStorage := setLocalStorageInt st.localStorage "activeCommunity"
      (match active with
       | some c => c.id
       | none => 1) }

/-- `Profiles.setActive(id)`: `this.active = await invoke('profile', 'get',
(id)); setLocalStorageInt('activeProfile', profiles.active?.id ?? 1)`. The
result of the backend `invoke` call is passed in as `fetched` (the TS type
says `ProfileInfo`, but the `?? 1` fallback handles an undefined result, so
the model keeps it optional). The backend relational store `st.db` is only
read by `invoke`, never written. -/
def profilesSetActive (st : FrontendState) (fetched : Option ProfileInfo) :
    FrontendState :=
  { st with
    profilesActive := fetched,
    localStorage := setLocalStorageInt st.localStorage "activeProfile"
      (match fetched with
       | some p => p.id
       | none => 1) }

/-- `Profiles.activeId` getter: returns `this.active.id` when an active
profile is set, otherwise logs a warning and returns `1`. Total: it can
neither throw nor return undefined. -/
def profilesActiveId (st : FrontendState) : Nat :=
  match st.profilesActive with
  | some p => p.id
  | none => 1

/-- The `listen<ProfileInfo>('profile-update', ...)` subscriber: replaces
`profiles.active` with the payload exactly when the payload's id matches
the currently active profile's id. -/
def profileUpdateHandler (st : FrontendState) (payload : ProfileInfo) :
    FrontendState :=
  match st.profilesActive with
  | some a => if a.id == payload.id then { st with profilesActive := some payload } else st
  | none => st

/-! ## Semantic-version triples -/

/-- A `(major, minor, patch)` triple, compared per-field lexicographically
(major first, then minor, then patch); no pre-release/build metadata. -/
structure SemVer where
  major : Nat
  minor : Nat
  patch : Nat
deriving DecidableEq, Repr

def semverLe (a b : SemVer) : Bool :=
  a.major < b.major ||
    (a.major == b.major &&
      (a.minor < b.minor || (a.minor == b.minor && a.patch ≤ b.patch)))

def semverLt (a b : SemVer) : Bool :=
  semverLe a b && a != b

def vTriple (v : VersionRow) : SemVer :=
  ⟨v.major, v.minor, v.patch⟩

/-- The version row with the greatest `(major, minor, patch)` lexicographic
triple; on a tie in the triple the earlier row is kept. -/
def maxVersion : List VersionRow → Option VersionRow
  | [] => none
  | v :: rest =>
    match maxVersion rest with
    | none => some v
    | some m => if semverLt (vTriple m) (vTriple v) then some v else some m

/-! ## Catalog write (spec-modelled) -/

/-- Modelled from the spec: the Package Catalog write
`upsertPackage(pkg, versions[])` of design section 4.2 is not in the source
tree (only the schema it writes to is). Per the spec it inserts or replaces
a package and its version set, recomputes `latest_version_id` as the
version with the greatest `(major, minor, patch)` lexicographic triple,
keeps the full-text shadow index synchronized as a side effect of the same
write, and fails with a referential-integrity error when `game_id` matches
no game row. The stored versions belong to the package, so their
`package_id` is set to the package's id. -/
def upsertPackage (db : Db) (p : PackageRow) (vs : List VersionRow) :
    Except SqlError Db :=
  match maxVersion vs with
  | none => .error .badInput
  | some latest =>
    if db.games.all (fun g => g.id != p.game_id) then
      .error .foreignKey
    else
      let newPkg := { p with latest_version_id := latest.id }
      .ok { db with
        packages := db.packages.filter (fun q => q.id != p.id) ++ [newPkg],
        packages_fts := db.packages_fts.filter (fun r => r.package_id != p.id)
          ++ [projFts newPkg],
        versions := db.versions.filter (fun v => v.package_id != p.id)
          ++ vs.map (fun v => { v with package_id := p.id }) }

/-- The database as created by the migration script: empty tables, except
the two seeded game rows. -/
def initDb : Db :=
  { games := [
      ⟨1, "Lethal Company", "lethal-company", "Lethal Company", 1966720,
        "BepInEx", none, false⟩,
      ⟨2, "Content Warning", "content-warning", "Content Warning", 2881650,
        "BepInEx", none, false⟩],
    packages := [], packages_fts := [], versions := [],
    dependencies := [], profiles := [], profile_mods := [] }

/-- Database states reachable from the freshly migrated store through the
catalog/profile write operations (rows are accessed only through these
APIs, per the ownership rule of design section 3). -/
inductive Reachable : Db → Prop
  | init : Reachable initDb
  | upsert {db db' : Db} (p : PackageRow) (vs : List VersionRow) :
      Reachable db → upsertPackage db p vs = .ok db' → Reachable db'
  | delPackage {db db' : Db} (t : Nat) :
      Reachable db → deletePackage db t = .ok db' → Reachable db'
  | delGame {db db' : Db} (t : Nat) :
      Reachable db → deleteGame db t = .ok db' → Reachable db'
  | delProfile {db db' : Db} (t : Nat) :
      Reachable db → deleteProfile db t = .ok db' → Reachable db'
  | insDependency {db db' : Db} (d : DependencyRow) :
      Reachable db → insertDependency db d = .ok db' → Reachable db'

/-! ## Dependency resolver (spec-modelled) -/

/-- A dependency edge as the resolver sees it: target owner, target name,
and the minimum-version floor. -/
structure RDep where
  owner : String
  name : String
  floor : SemVer
deriving DecidableEq, Repr

/-- A version as the resolver sees it: id, its semantic triple, and its
declared dependency edges (insertion order preserved, per
`getDependencyEdges`). -/
structure RVersion where
  id : Nat
  ver : SemVer
  deps : List RDep
deriving DecidableEq, Repr

/-- A package as the resolver sees it: identity `(owner, name)` and its
known versions. -/
structure RPackage where
  owner : String
  name : String
  versions : List RVersion
deriving DecidableEq, Repr

abbrev RCatalog := List RPackage

/-- Package-identity key. -/
abbrev PkgKey := String × String

def findRPackage (cat : RCatalog) (owner pkgName : String) : Option RPackage :=
  cat.find? (fun p => p.owner == owner && p.name == pkgName)

/-- The candidate version of a package with the greatest triple among those
satisfying `floor ≤ candidate`; on a triple tie the earlier row is kept. -/
def maxRVersion : List RVersion → Option RVersion
  | [] => none
  | v :: rest =>
    match maxRVersion rest with
    | none => some v
    | some m => if semverLt m.ver v.ver then some v else some m

def bestCandidate (p : RPackage) (floor : SemVer) : Option RVersion :=
  maxRVersion (p.versions.filter (fun v => semverLe floor v.ver))

inductive ResolveError where
  /-- An unsatisfiable dependency: target owner, target name, the (merged)
  floor that could not be satisfied, and the id of the requiring version. -/
  | unsatisfiable (owner : String) (pkgName : String) (floor : SemVer)
      (requiringVersion : Nat)
  | outOfFuel
deriving DecidableEq, Repr

/-- Resolver working state: the chosen version id per package identity,
and the highest floor seen so far per package identity. -/
structure RState where
  chosen : List (PkgKey × Nat)
  floors : List (PkgKey × SemVer)
deriving DecidableEq, Repr

def lookupKey {α : Type} (l : List (PkgKey × α)) (k : PkgKey) : Option α :=
  (l.find? (fun e => e.1 == k)).map (fun e => e.2)

def setKey {α : Type} (l : List (PkgKey × α)) (k : PkgKey) (v : α) :
    List (PkgKey × α) :=
  (k, v) :: l.filter (fun e => e.1 != k)

/-- Modelled from the spec: one step of the breadth-first closure of design
section 4.3 — process the dependency edges of the version `vid`. For each
edge: merge the floor keeping the single highest, look the named package up
in the catalog (an unknown target is equivalent to no satisfying version),
pick the candidate with the greatest triple satisfying the merged floor,
and fail naming the package, the merged floor and the requiring version if
none exists. When the chosen candidate or the floor changed, record them
and queue the candidate so its own edges are (re-)scanned; otherwise the
visited bookkeeping leaves the state untouched and queues nothing. -/
def processDeps (cat : RCatalog) (vid : Nat) :
    List RDep → RState → Except ResolveError (RState × List RVersion)
  | [], st => .ok (st, [])
  | d :: ds, st =>
    let key : PkgKey := (d.owner, d.name)
    let newFloor :=
      match lookupKey st.floors key with
      | none => d.floor
      | some f => if semverLe f d.floor then d.floor else f
    match findRPackage cat d.owner d.name with
    | none => .error (.unsatisfiable d.owner d.name newFloor vid)
    | some pkg =>
      match bestCandidate pkg newFloor with
      | none => .error (.unsatisfiable d.owner d.name newFloor vid)
      | some cand =>
        if lookupKey st.chosen key == some cand.id
            && lookupKey st.floors key == some newFloor then
          processDeps cat vid ds st
        else
          let st' : RState :=
            ⟨setKey st.chosen key cand.id, setKey st.floors key newFloor⟩
          match processDeps cat vid ds st' with
          | .error e => .error e
          | .ok (st'', work) => .ok (st'', cand :: work)

/-- The worklist loop of the closure; `fuel` bounds the number of worklist
pops (the spec argues termination through the visited-set guard; the model
makes the bound explicit). -/
def resolveLoop (cat : RCatalog) :
    Nat → List RVersion → RState → Except ResolveError RState
  | 0, _, _ => .error .outOfFuel
  | _ + 1, [], st => .ok st
  | fuel + 1, v :: rest, st =>
    match processDeps cat v.id v.deps st with
    | .error e => .error e
    | .ok (st', work) => resolveLoop cat fuel (rest ++ work) st'

def catVersionCount (cat : RCatalog) : Nat :=
  (cat.map (fun p => p.versions.length)).sum

def catDepCount (cat : RCatalog) : Nat :=
  (cat.map (fun p => (p.versions.map (fun v => v.deps.length)).sum)).sum

/-- Modelled from the spec: `resolve(roots)` of design section 4.3 — the
breadth-first closure over dependency edges starting from the requested
root versions, returning the mapping from package identity to chosen
version id, or the first unsatisfiable requirement. -/
def resolve (cat : RCatalog) (roots : List RVersion) :
    Except ResolveError (List (PkgKey × Nat)) :=
  (resolveLoop cat
      ((catVersionCount cat + 1) * (catDepCount cat + 1) + roots.length + 1)
      roots ⟨[], []⟩).map (fun st => st.chosen)

/-! ## Helper lemmas -/

theorem semverLe_refl (a : SemVer) : semverLe a a = true := by
  obtain ⟨a1, a2, a3⟩ := a
  simp [semverLe]

theorem semverLe_trans {a b c : SemVer} (hab : semverLe a b = true)
    (hbc : semverLe b c = true) : semverLe a c = true := by
  obtain ⟨a1, a2, a3⟩ := a
  obtain ⟨b1, b2, b3⟩ := b
  obtain ⟨c1, c2, c3⟩ := c
  simp only [semverLe, Bool.or_eq_true, Bool.and_eq_true, beq_iff_eq,
    decide_eq_true_eq] at *
  omega

theorem semverLt_le {a b : SemVer} (h : semverLt a b = true) :
    semverLe a b = true := by
  simp only [semverLt, Bool.and_eq_true] at h
  exact h.1

theorem semverLe_total (a b : SemVer) :
    semverLe a b = true ∨ semverLe b a = true := by
  obtain ⟨a1, a2, a3⟩ := a
  obtain ⟨b1, b2, b3⟩ := b
  simp only [semverLe, Bool.or_eq_true, Bool.and_eq_true, beq_iff_eq,
    decide_eq_true_eq]
  omega

theorem semverLt_false_le {a b : SemVer} (h : semverLt a b = false) :
    semverLe b a = true := by
  by_cases he : a = b
  · subst he
    exact semverLe_refl a
  · have hle : semverLe a b = false := by
      cases hc : semverLe a b with
      | false => rfl
      | true =>
        exfalso
        simp only [semverLt, hc, Bool.true_and, bne_eq_false_iff_eq] at h
        exact he h
    rcases semverLe_total a b with ht | ht
    · rw [hle] at ht
      exact absurd ht (by simp)
    · exact ht

theorem maxVersion_mem {vs : List VersionRow} {m : VersionRow}
    (h : maxVersion vs = some m) : m ∈ vs := by
  induction vs generalizing m with
  | nil => simp [maxVersion] at h
  | cons v rest ih =>
    cases hr : maxVersion rest with
    | none =>
      simp only [maxVersion, hr] at h
      cases h
      exact List.mem_cons_self _ _
    | some m' =>
      simp only [maxVersion, hr] at h
      by_cases hlt : semverLt (vTriple m') (vTriple v) = true
      · rw [if_pos hlt] at h
        cases h
        exact List.mem_cons_self _ _
      · rw [if_neg hlt] at h
        cases h
        exact List.mem_cons_of_mem _ (ih hr)

theorem maxVersion_eq_none {vs : List VersionRow}
    (h : maxVersion vs = none) : vs = [] := by
  cases vs with
  | nil => rfl
  | cons v rest =>
    exfalso
    cases hr : maxVersion rest with
    | none =>
      simp only [maxVersion, hr] at h
      exact Option.noConfusion h
    | some m' =>
      simp only [maxVersion, hr] at h
      by_cases hlt : semverLt (vTriple m') (vTriple v) = true
      · rw [if_pos hlt] at h
        exact Option.noConfusion h
      · rw [if_neg hlt] at h
        exact Option.noConfusion h

theorem maxVersion_ge {vs : List VersionRow} {m : VersionRow}
    (h : maxVersion vs = some m) :
    ∀ v ∈ vs, semverLe (vTriple v) (vTriple m) = true := by
  induction vs generalizing m with
  | nil => simp
  | cons v rest ih =>
    cases hr : maxVersion rest with
    | none =>
      simp only [maxVersion, hr] at h
      cases h
      rw [maxVersion_eq_none hr]
      intro w hw
      rcases List.mem_cons.mp hw with hw | hw
      · subst hw
        exact semverLe_refl _
      · simp at hw
    | some m' =>
      simp only [maxVersion, hr] at h
      by_cases hlt : semverLt (vTriple m') (vTriple v) = true
      · rw [if_pos hlt] at h
        cases h
        intro w hw
        rcases List.mem_cons.mp hw with hw | hw
        · subst hw
          exact semverLe_refl _
        · exact semverLe_trans (ih hr w hw) (semverLt_le hlt)
      · rw [if_neg hlt] at h
        cases h
        intro w hw
        rcases List.mem_cons.mp hw with hw | hw
        · subst hw
          exact semverLt_false_le (by simpa using hlt)
        · exact ih hr w hw

/-- Filtering the shadow projection of a package list by `package_id`
matches filtering the packages by `id`. -/
theorem filter_map_projFts (l : List PackageRow) (t : Nat) :
    (l.map projFts).filter (fun r => r.package_id == t)
      = (l.filter (fun p => p.id == t)).map projFts := by
  induction l with
  | nil => rfl
  | cons p rest ih =>
    by_cases hp : (p.id == t) = true
    · simp [projFts, hp, ih]
    · simp [projFts, hp, ih, List.filter_cons]

/-- In a package list with no duplicate ids, filtering on a member's id
yields exactly that member. -/
theorem nodup_filter_eq_single {l : List PackageRow} {p : PackageRow}
    (hp : p ∈ l) (hnd : (l.map (fun q => q.id)).Nodup) :
    l.filter (fun q => q.id == p.id) = [p] := by
  induction l with
  | nil => simp at hp
  | cons q rest ih =>
    simp only [List.map_cons, List.nodup_cons] at hnd
    rcases List.mem_cons.mp hp with hq | hq
    · subst hq
      have hrest : rest.filter (fun r => r.id == p.id) = [] := by
        apply List.filter_eq_nil_iff.mpr
        intro r hr
        simp only [Bool.not_eq_true, beq_eq_false_iff_ne, ne_eq]
        intro he
        apply hnd.1
        rw [← he]
        exact List.mem_map_of_mem (fun x => x.id) hr
      simp [List.filter_cons, hrest]
    · have hne : q.id ≠ p.id := by
        intro he
        apply hnd.1
        rw [he]
        exact List.mem_map_of_mem (fun x => x.id) hq
      rw [List.filter_cons, if_neg (by simpa using hne)]
      exact ih hq hnd.2

/-! ## Invariant predicates -/

/-- No two package rows share an id (the `packages` primary key). -/
def pkgIdsNodup (db : Db) : Prop :=
  (db.packages.map (fun p => p.id)).Nodup

/-- The full-text shadow table is exactly the projection of the packages
table. -/
def ftsInv (db : Db) : Prop :=
  db.packages_fts = db.packages.map projFts

/-- The claim's synchronization property: exactly one shadow row per
package row, carrying the package row's current name, description and
owner, and no orphan shadow rows. -/
def ftsExact (db : Db) : Prop :=
  (∀ p ∈ db.packages,
      db.packages_fts.filter (fun r => r.package_id == p.id) = [projFts p]) ∧
  (∀ r ∈ db.packages_fts, ∃ p ∈ db.packages, r.package_id = p.id)

instance (db : Db) : Decidable (ftsExact db) := by
  unfold ftsExact
  infer_instance

instance (db : Db) : Decidable (pkgIdsNodup db) := by
  unfold pkgIdsNodup
  infer_instance

instance (db : Db) : Decidable (ftsInv db) := by
  unfold ftsInv
  infer_instance

/-- Every package row's `latest_version_id` refers to an existing version
row whose `package_id` is that package's id. -/
def latestOk (db : Db) : Prop :=
  ∀ p ∈ db.packages, ∃ v ∈ db.versions,
    v.id = p.latest_version_id ∧ v.package_id = p.id

instance (db : Db) : Decidable (latestOk db) := by
  unfold latestOk
  infer_instance

/-- Every package row's `game_id` matches an existing game row. -/
def packagesGameFk (db : Db) : Prop :=
  ∀ p ∈ db.packages, ∃ g ∈ db.games, g.id = p.game_id

/-- The composite-key part of a dependency row. -/
def depKey (d : DependencyRow) : Nat × String × String :=
  (d.dependent_id, d.owner, d.name)

/-- At most one dependency edge per `(dependent_id, owner, name)`. -/
def depKeyUnique (db : Db) : Prop :=
  db.dependencies.Pairwise (fun a b => depKey a ≠ depKey b)

/-! ## Claim theorems -/

/-- C1: for a catalog in which package A declares a dependency on package B
with floor (1,2,0): when the catalog's only B versions carry the triples
(1,1,0) and (1,3,0), resolving A chooses B at the (1,3,0) version; when the
only B version carries (1,1,0), resolution fails with an
unsatisfiable-dependency result naming B and the floor (1,2,0) and the
requiring version, instead of omitting the dependency. Proved for every
choice of version ids and of A's own triple. -/
theorem c1_resolver_floor_selection_and_failure (idA idB1 idB2 : Nat)
    (verA : SemVer) :
    (resolve
        [⟨"ownerA", "A", [⟨idA, verA, [⟨"ownerB", "B", ⟨1, 2, 0⟩⟩]⟩]⟩,
         ⟨"ownerB", "B", [⟨idB1, ⟨1, 1, 0⟩, []⟩, ⟨idB2, ⟨1, 3, 0⟩, []⟩]⟩]
        [⟨idA, verA, [⟨"ownerB", "B", ⟨1, 2, 0⟩⟩]⟩]
      = .ok [(("ownerB", "B"), idB2)]) ∧
    (resolve
        [⟨"ownerA", "A", [⟨idA, verA, [⟨"ownerB", "B", ⟨1, 2, 0⟩⟩]⟩]⟩,
         ⟨"ownerB", "B", [⟨idB1, ⟨1, 1, 0⟩, []⟩]⟩]
        [⟨idA, verA, [⟨"ownerB", "B", ⟨1, 2, 0⟩⟩]⟩]
      = .error (.unsatisfiable "ownerB" "B" ⟨1, 2, 0⟩ idA)) := by
  constructor <;> rfl

/-- C6: delivering the same profile-update payload twice in succession to
the `profile-update` subscriber leaves the presentation-layer state
identical to delivering it once. -/
theorem c6_duplicate_profile_update_is_noop (st : FrontendState)
    (payload : ProfileInfo) :
    profileUpdateHandler (profileUpdateHandler st payload) payload
      = profileUpdateHandler st payload := by
  unfold profileUpdateHandler
  cases h : st.profilesActive with
  | none => simp [h]
  | some a =>
    by_cases hid : (a.id == payload.id) = true
    · simp [h, hid]
    · simp [h, hid]

/-- C10: `Profiles.activeId` returns the active profile's id whenever an
active profile is set, and the constant 1 whenever none is set; being a
total function into `Nat`, it can neither throw nor return undefined. -/
theorem c10_active_id_total (st : FrontendState) :
    (∀ p, st.profilesActive = some p → profilesActiveId st = p.id) ∧
    (st.profilesActive = none → profilesActiveId st = 1) := by
  constructor
  · intro p hp
    simp [profilesActiveId, hp]
  · intro hp
    simp [profilesActiveId, hp]

theorem c10_active_id_total_witness :
    profilesActiveId ⟨[], none, some ⟨7, "pf"⟩, [], initDb⟩ = 7 ∧
    profilesActiveId ⟨[], none, none, [], initDb⟩ = 1 :=
  ⟨(c10_active_id_total ⟨[], none, some ⟨7, "pf"⟩, [], initDb⟩).1 ⟨7, "pf"⟩ rfl,
   (c10_active_id_total ⟨[], none, none, [], initDb⟩).2 rfl⟩

/-- A frontend state with empty `localStorage`, over the freshly migrated
backend store. -/
def freshFrontend : FrontendState :=
  ⟨[], none, none, [], initDb⟩

/-- C4 counterexample: switching the active profile writes the selected id
under the `activeProfile` key of `localStorage`, a store that persists
beyond the process lifetime (the module itself reads the key back through
`getLocalStorageInt('activeProfile', 1)` at the next startup) — so a record
of the active-profile selection does remain in a persistent store,
contradicting the claim. -/
theorem c4_set_active_writes_persistent_record :
    lsGet (profilesSetActive freshFrontend (some ⟨5, "pf"⟩)).localStorage
        "activeProfile" = some "5" ∧
    (profilesSetActive freshFrontend (some ⟨5, "pf"⟩)).localStorage
      ≠ freshFrontend.localStorage := by
  constructor
  · rfl
  · decide

/-- C4 (amended): `Profiles.setActive` never mutates the backend relational
store; it does, however, record the selected profile id in `localStorage`
under the `activeProfile` key, and this record persists beyond the process
lifetime. Only the in-memory `active` pointer itself is process-scoped. -/
theorem c4_set_active_frame (st : FrontendState) (fetched : Option ProfileInfo) :
    (profilesSetActive st fetched).db = st.db ∧
    (profilesSetActive st fetched).localStorage
      = lsSet st.localStorage "activeProfile"
          (toString (match fetched with
            | some p => p.id
            | none => 1)) ∧
    (profilesSetActive st fetched).communitiesAll = st.communitiesAll ∧
    (profilesSetActive st fetched).communitiesActive = st.communitiesActive := by
  refine ⟨rfl, ?_, rfl, rfl⟩
  cases fetched <;> rfl

/-- C9: calling `Communities.setActive` with an id that belongs to no
community in `Communities.all` sets the active community to undefined (the
non-null assertion in `getCommunity` performs no runtime check) and stores
the fallback value 1 under the `activeCommunity` key, rather than failing
with an error. -/
theorem c9_set_active_unknown_community (st : FrontendState) (id : Nat)
    (h : ∀ c ∈ st.communitiesAll, c.id ≠ id) :
    (communitiesSetActive st id).communitiesActive = none ∧
    lsGet (communitiesSetActive st id).localStorage "activeCommunity"
      = some "1" := by
  have hfind : getCommunity st.communitiesAll id = none := by
    unfold getCommunity
    rw [List.find?_eq_none]
    intro c hc
    simpa using h c hc
  constructor
  · simp [communitiesSetActive, hfind]
  · simp only [communitiesSetActive, hfind]
    rfl

theorem c9_set_active_unknown_community_witness :
    (∀ c ∈ (⟨[⟨2, "cw"⟩], none, none, [], initDb⟩ : FrontendState).communitiesAll,
        c.id ≠ 5) ∧
    (communitiesSetActive ⟨[⟨2, "cw"⟩], none, none, [], initDb⟩ 5).communitiesActive
        = none ∧
    lsGet (communitiesSetActive ⟨[⟨2, "cw"⟩], none, none, [], initDb⟩ 5).localStorage
        "activeCommunity" = some "1" :=
  ⟨by decide,
   c9_set_active_unknown_community ⟨[⟨2, "cw"⟩], none, none, [], initDb⟩ 5
     (by decide)⟩

/-- C5: deleting a game cascades to delete every profile owned by that
game; deleting a profile cascades to delete every ProfileMod row owned by
that profile; and transitively, deleting a game leaves no ProfileMod row of
any of the game's profiles behind. -/
theorem c5_delete_cascades :
    (∀ db t db', deleteGame db t = .ok db' →
        ∀ pr ∈ db'.profiles, pr.game_id ≠ t) ∧
    (∀ db t db', deleteProfile db t = .ok db' →
        ∀ m ∈ db'.profile_mods, m.profile_id ≠ t) ∧
    (∀ db t db', deleteGame db t = .ok db' →
        ∀ m ∈ db'.profile_mods, ∀ pr ∈ db.profiles,
          pr.game_id = t → m.profile_id ≠ pr.id) := by
  refine ⟨?_, ?_, ?_⟩
  · intro db t db' h pr hpr
    unfold deleteGame at h
    split at h
    · exact Except.noConfusion h
    · cases h
      have := (List.mem_filter.mp hpr).2
      simpa using this
  · intro db t db' h m hm
    unfold deleteProfile at h
    cases h
    have := (List.mem_filter.mp hm).2
    simpa using this
  · intro db t db' h m hm pr hpr hgame
    unfold deleteGame at h
    split at h
    · exact Except.noConfusion h
    · cases h
      have hkeep := (List.mem_filter.mp hm).2
      simp only [Bool.not_eq_true', List.any_eq_false] at hkeep
      intro heq
      have hdead : pr ∈ db.profiles.filter (fun q => q.game_id == t) :=
        List.mem_filter.mpr ⟨hpr, by simpa using hgame⟩
      have := hkeep pr hdead
      simp [heq] at this

/-- A database used to exercise the cascade theorem: one extra game, one
profile of each game, and one mod row in each profile. -/
def cascadeDb : Db :=
  { initDb with
    profiles := [⟨1, "p1", "pa", false, none, 1⟩, ⟨2, "p2", "pb", false, none, 2⟩],
    profile_mods := [⟨1, 1, true, 0, "s1"⟩, ⟨2, 2, true, 0, "s2"⟩] }

def cascadeDbAfter : Db :=
  { initDb with
    profiles := [⟨2, "p2", "pb", false, none, 2⟩],
    profile_mods := [⟨2, 2, true, 0, "s2"⟩],
    games := initDb.games.filter (fun g => g.id != 1) }

theorem c5_delete_cascades_witness :
    deleteGame cascadeDb 1 = .ok cascadeDbAfter ∧
    (∀ pr ∈ cascadeDbAfter.profiles, pr.game_id ≠ 1) ∧
    (∀ m ∈ cascadeDbAfter.profile_mods, ∀ pr ∈ cascadeDb.profiles,
        pr.game_id = 1 → m.profile_id ≠ pr.id) :=
  ⟨rfl,
   c5_delete_cascades.1 cascadeDb 1 cascadeDbAfter rfl,
   c5_delete_cascades.2.2 cascadeDb 1 cascadeDbAfter rfl⟩

/-- C7: the `dependencies` table holds at most one edge per
`(dependent_id, owner, name)`: a second edge from the same dependent
version to the same owner+name is rejected by the composite primary key,
and key-uniqueness is preserved by successful inserts. The edge targets the
package only by owner and name: a successful insert stays successful (with
the same rows added) for any content of the `packages` table and of the
full-text index, in particular when no package of that owner+name exists
locally — there is no foreign key to a version row of the target. -/
theorem c7_dependency_edges_unique_and_soft :
    (∀ db d, (∃ e ∈ db.dependencies, depKey e = depKey d) →
        insertDependency db d = .error .primaryKey) ∧
    (∀ db d db', depKeyUnique db → insertDependency db d = .ok db' →
        depKeyUnique db') ∧
    (∀ db d db', insertDependency db d = .ok db' →
        db'.dependencies = db.dependencies ++ [d] ∧
        ∀ ps fts, insertDependency { db with packages := ps, packages_fts := fts } d
          = .ok { db' with packages := ps, packages_fts := fts }) := by
  refine ⟨?_, ?_, ?_⟩
  · intro db d hdup
    obtain ⟨e, he, hkey⟩ := hdup
    unfold insertDependency
    rw [if_pos]
    rw [List.any_eq_true]
    refine ⟨e, he, ?_⟩
    unfold depKey at hkey
    simp only [Prod.mk.injEq] at hkey
    simp [hkey.1, hkey.2.1, hkey.2.2]
  · intro db d db' huniq h
    unfold insertDependency at h
    split at h
    · exact Except.noConfusion h
    · split at h
      · exact Except.noConfusion h
      · rename_i hnodup _
        cases h
        show (db.dependencies ++ [d]).Pairwise _
        rw [List.pairwise_append]
        refine ⟨huniq, by simp, ?_⟩
        intro e he b hb
        simp only [List.mem_singleton] at hb
        subst hb
        simp only [Bool.not_eq_true, List.any_eq_false] at hnodup
        have := hnodup e he
        unfold depKey
        simp only [Bool.and_eq_false_iff, beq_eq_false_iff_ne, ne_eq,
          Bool.and_eq_false_iff] at this
        intro hcontra
        simp only [Prod.mk.injEq] at hcontra
        rcases this with h1 | h2
        · rcases h1 with h1 | h1
          · exact h1 hcontra.1
          · exact h1 hcontra.2.1
        · exact h2 hcontra.2.2
  · intro db d db' h
    unfold insertDependency at h
    split at h
    · exact Except.noConfusion h
    · split at h
      · exact Except.noConfusion h
      · rename_i hnodup hver
        cases h
        refine ⟨rfl, ?_⟩
        intro ps fts
        unfold insertDependency
        rw [if_neg (by simpa using hnodup), if_neg (by simpa using hver)]

/-- A database with one version row and one declared dependency edge whose
target package is not in the catalog. -/
def depDb : Db :=
  { initDb with
    versions := [⟨100, 50, 0, 0, 0, true, none, 1, 0, 0⟩],
    dependencies := [⟨100, "own", "Lib", 1, 2, 0⟩] }

theorem c7_dependency_edges_witness :
    insertDependency depDb ⟨100, "own", "Lib", 9, 9, 9⟩ = .error .primaryKey ∧
    insertDependency depDb ⟨100, "own", "Other", 1, 0, 0⟩
      = .ok { depDb with
          dependencies := depDb.dependencies ++ [⟨100, "own", "Other", 1, 0, 0⟩] } ∧
    depDb.packages = [] :=
  ⟨c7_dependency_edges_unique_and_soft.1 depDb ⟨100, "own", "Lib", 9, 9, 9⟩
      ⟨⟨100, "own", "Lib", 1, 2, 0⟩, by decide, rfl⟩,
   rfl, rfl⟩

/-- C8: a package write whose `game_id` matches no game row fails with a
referential-integrity (foreign-key) error — and because the operations
return either an error or a new state, a failed write leaves the catalog
unchanged; consequently, across inserts, updates and catalog upserts, no
stored package row ever references a nonexistent game. -/
theorem c8_package_game_fk :
    (∀ db p, (∀ g ∈ db.games, g.id ≠ p.game_id) →
        insertPackage db p = .error .foreignKey) ∧
    (∀ db t row, (∃ q ∈ db.packages, q.id = t) →
        (∀ g ∈ db.games, g.id ≠ row.game_id) →
        updatePackage db t row = .error .foreignKey) ∧
    (∀ db p vs, maxVersion vs ≠ none → (∀ g ∈ db.games, g.id ≠ p.game_id) →
        upsertPackage db p vs = .error .foreignKey) ∧
    (∀ db p db', packagesGameFk db → insertPackage db p = .ok db' →
        packagesGameFk db') ∧
    (∀ db t row db', packagesGameFk db → updatePackage db t row = .ok db' →
        packagesGameFk db') ∧
    (∀ db p vs db', packagesGameFk db → upsertPackage db p vs = .ok db' →
        packagesGameFk db') := by
  have hall : ∀ (gs : List GameRow) (gid : Nat), (∀ g ∈ gs, g.id ≠ gid) →
      gs.all (fun g => g.id != gid) = true := by
    intro gs gid h
    rw [List.all_eq_true]
    intro g hg
    simpa using h g hg
  have hex : ∀ (gs : List GameRow) (gid : Nat),
      gs.all (fun g => g.id != gid) = false → ∃ g ∈ gs, g.id = gid := by
    intro gs gid h
    rw [List.all_eq_false] at h
    obtain ⟨g, hg, hne⟩ := h
    exact ⟨g, hg, by simpa using hne⟩
  refine ⟨?_, ?_, ?_, ?_, ?_, ?_⟩
  · intro db p h
    unfold insertPackage
    rw [if_pos (hall db.games p.game_id h)]
  · intro db t row hmem h
    unfold updatePackage
    rw [if_neg, if_pos (hall db.games row.game_id h)]
    obtain ⟨q, hq, hqid⟩ := hmem
    intro hcontra
    rw [List.all_eq_true] at hcontra
    have := hcontra q hq
    simp [hqid] at this
  · intro db p vs hvs h
    cases hm : maxVersion vs with
    | none => exact absurd hm hvs
    | some latest =>
      simp [upsertPackage, hm, hall db.games p.game_id h]
  · intro db p db' hfk h
    unfold insertPackage at h
    split at h
    · exact Except.noConfusion h
    · split at h
      · exact Except.noConfusion h
      · rename_i hgames _
        cases h
        intro q hq
        simp only [List.mem_append, List.mem_singleton] at hq
        rcases hq with hq | hq
        · exact hfk q hq
        · subst hq
          exact hex db.games q.game_id (by simpa using hgames)
  · intro db t row db' hfk h
    unfold updatePackage at h
    split at h
    · cases h
      exact hfk
    · split at h
      · exact Except.noConfusion h
      · split at h
        · exact Except.noConfusion h
        · rename_i h1 h2 h3
          cases h
          intro q hq
          simp only [List.mem_map] at hq
          obtain ⟨q0, hq0, hq0eq⟩ := hq
          by_cases hid : (q0.id == t) = true
          · rw [if_pos hid] at hq0eq
            subst hq0eq
            exact hex db.games row.game_id (by simpa using h2)
          · rw [if_neg hid] at hq0eq
            subst hq0eq
            exact hfk q0 hq0
  · intro db p vs db' hfk h
    cases hm : maxVersion vs with
    | none =>
      simp only [upsertPackage, hm] at h
      exact Except.noConfusion h
    | some latest =>
      simp only [upsertPackage, hm] at h
      split at h
      · exact Except.noConfusion h
      · rename_i hgames
        cases h
        intro q hq
        simp only [List.mem_append, List.mem_singleton, List.mem_filter] at hq
        rcases hq with ⟨hq, _⟩ | hq
        · exact hfk q hq
        · subst hq
          exact hex db.games p.game_id (by simpa using hgames)

/-- A package row referencing game 9, which is not in the seeded games
table. -/
def orphanPkg : PackageRow :=
  ⟨7, "Mod", "auth", "d", 0, false, false, false, 0, 0, none, 0, 9⟩

theorem c8_package_game_fk_witness :
    (∀ g ∈ initDb.games, g.id ≠ orphanPkg.game_id) ∧
    insertPackage initDb orphanPkg = .error .foreignKey ∧
    upsertPackage initDb orphanPkg [⟨1, 7, 0, 0, 0, true, none, 1, 0, 0⟩]
      = .error .foreignKey :=
  ⟨by decide,
   c8_package_game_fk.1 initDb orphanPkg (by decide),
   c8_package_game_fk.2.2.1 initDb orphanPkg
     [⟨1, 7, 0, 0, 0, true, none, 1, 0, 0⟩] (by decide) (by decide)⟩

/-- Generalization of `filter_map_projFts` to any predicate on the id. -/
theorem filter_map_projFts_pred (l : List PackageRow) (f : Nat → Bool) :
    (l.map projFts).filter (fun r => f r.package_id)
      = (l.filter (fun p => f p.id)).map projFts := by
  induction l with
  | nil => rfl
  | cons p rest ih =>
    by_cases hp : f p.id = true
    · simp [projFts, hp, ih]
    · simp [projFts, hp, ih, List.filter_cons]

theorem ftsExact_of_inv {db : Db} (h1 : pkgIdsNodup db) (h2 : ftsInv db) :
    ftsExact db := by
  constructor
  · intro p hp
    rw [h2, filter_map_projFts, nodup_filter_eq_single hp h1]
    rfl
  · intro r hr
    rw [h2] at hr
    obtain ⟨p, hp, hpe⟩ := List.mem_map.mp hr
    refine ⟨p, hp, ?_⟩
    rw [← hpe]
    rfl

theorem inv_preserved_insert {db db' : Db} {p : PackageRow}
    (h1 : pkgIdsNodup db) (h2 : ftsInv db)
    (h : insertPackage db p = .ok db') : pkgIdsNodup db' ∧ ftsInv db' := by
  unfold insertPackage at h
  split at h
  · exact Except.noConfusion h
  · split at h
    · exact Except.noConfusion h
    · rename_i hfk hpk
      cases h
      refine ⟨?_, ?_⟩
      · unfold pkgIdsNodup
        dsimp only
        rw [List.map_append, List.nodup_append]
        refine ⟨h1, List.nodup_singleton _, ?_⟩
        intro a ha hb
        simp only [List.map_cons, List.map_nil, List.mem_singleton] at hb
        subst hb
        obtain ⟨q, hq, hqe⟩ := List.mem_map.mp ha
        simp only [Bool.not_eq_true, List.any_eq_false] at hpk
        have := hpk q hq
        rw [hqe] at this
        simp at this
      · unfold ftsInv
        dsimp only
        rw [h2, List.map_append]
        rfl

theorem inv_preserved_update {db db' : Db} {t : Nat} {row : PackageRow}
    (hrow : row.id = t) (h1 : pkgIdsNodup db) (h2 : ftsInv db)
    (h : updatePackage db t row = .ok db') : pkgIdsNodup db' ∧ ftsInv db' := by
  unfold updatePackage at h
  split at h
  · cases h
    exact ⟨h1, h2⟩
  · split at h
    · exact Except.noConfusion h
    · split at h
      · exact Except.noConfusion h
      · cases h
        refine ⟨?_, ?_⟩
        · unfold pkgIdsNodup
          dsimp only
          rw [List.map_map]
          have hfun : ((fun q : PackageRow => q.id) ∘
              (fun q => if q.id == t then row else q)) = fun q : PackageRow => q.id := by
            funext q
            by_cases hq : q.id = t
            · simp [hq, hrow]
            · simp [hq]
          rw [hfun]
          exact h1
        · unfold ftsInv
          dsimp only
          rw [h2, List.map_map, List.map_map]
          congr 1
          funext q
          by_cases hq : q.id = t
          · have hq' : q.id = row.id := by
              rw [hrow]
              exact hq
            simp [Function.comp_apply, projFts, hq, hq', hrow]
          · have hq' : ¬ q.id = row.id := by
              rw [hrow]
              exact hq
            simp [Function.comp_apply, projFts, hq, hq']

theorem inv_preserved_delete {db db' : Db} {t : Nat}
    (h1 : pkgIdsNodup db) (h2 : ftsInv db)
    (h : deletePackage db t = .ok db') : pkgIdsNodup db' ∧ ftsInv db' := by
  unfold deletePackage at h
  cases h
  refine ⟨?_, ?_⟩
  · unfold pkgIdsNodup
    dsimp only
    have hsub : List.Sublist
        ((db.packages.filter (fun q => q.id != t)).map (fun q => q.id))
        (db.packages.map (fun q => q.id)) :=
      (List.filter_sublist _).map _
    exact h1.sublist hsub
  · unfold ftsInv
    dsimp only
    rw [h2]
    exact filter_map_projFts_pred db.packages (fun i => i != t)

/-- C2 (amended): after every insert or delete of a package row, and after
every update that leaves the package's id unchanged, the full-text shadow
index contains exactly one row per package row, carrying the package row's
current name, description and owner, with no orphan rows — the triggers
update it as a side effect of the same write. (An update that changes the
package's id is the one write the `update_package_fts` trigger does not
cover: it rewrites shadow rows matching NEW.id, leaving the OLD.id shadow
row stale, as the counterexample shows.) -/
theorem c2_fts_sync_amended (db : Db)
    (h1 : pkgIdsNodup db) (h2 : ftsInv db) :
    (∀ p db', insertPackage db p = .ok db' →
        pkgIdsNodup db' ∧ ftsInv db' ∧ ftsExact db') ∧
    (∀ t row db', row.id = t → updatePackage db t row = .ok db' →
        pkgIdsNodup db' ∧ ftsInv db' ∧ ftsExact db') ∧
    (∀ t db', deletePackage db t = .ok db' →
        pkgIdsNodup db' ∧ ftsInv db' ∧ ftsExact db') := by
  refine ⟨?_, ?_, ?_⟩
  · intro p db' h
    obtain ⟨a, b⟩ := inv_preserved_insert h1 h2 h
    exact ⟨a, b, ftsExact_of_inv a b⟩
  · intro t row db' hrow h
    obtain ⟨a, b⟩ := inv_preserved_update hrow h1 h2 h
    exact ⟨a, b, ftsExact_of_inv a b⟩
  · intro t db' h
    obtain ⟨a, b⟩ := inv_preserved_delete h1 h2 h
    exact ⟨a, b, ftsExact_of_inv a b⟩

def c2Pkg : PackageRow :=
  ⟨1, "Mod", "auth", "d", 0, false, false, false, 0, 0, none, 0, 1⟩

def c2Row2 : PackageRow :=
  { c2Pkg with id := 2 }

def c2Db1 : Db :=
  { initDb with packages := [c2Pkg], packages_fts := [projFts c2Pkg] }

def c2Db2 : Db :=
  { initDb with packages := [c2Row2], packages_fts := [projFts c2Pkg] }

/-- C2 counterexample: starting from the migrated store, insert a package
with id 1, then update it changing its id to 2 (a legal `UPDATE` against
this schema). Both writes succeed, but after the update the shadow index
still holds the row keyed by the old id — the index does lag the packages
table, so the claim's "after every insert, update, or delete" fails. -/
theorem c2_fts_update_changing_id_desyncs :
    insertPackage initDb c2Pkg = .ok c2Db1 ∧
    ftsExact c2Db1 ∧
    updatePackage c2Db1 1 c2Row2 = .ok c2Db2 ∧
    ¬ ftsExact c2Db2 :=
  ⟨rfl, by decide, rfl, by decide⟩

theorem c2_fts_sync_amended_witness :
    pkgIdsNodup c2Db1 ∧ ftsInv c2Db1 ∧ ftsExact c2Db1 :=
  (c2_fts_sync_amended initDb (by decide) (by decide)).1 c2Pkg c2Db1 rfl

theorem latestOk_upsert {db db' : Db} {p : PackageRow} {vs : List VersionRow}
    (hlat : latestOk db) (h : upsertPackage db p vs = .ok db') : latestOk db' := by
  cases hm : maxVersion vs with
  | none =>
    simp only [upsertPackage, hm] at h
    exact Except.noConfusion h
  | some latest =>
    simp only [upsertPackage, hm] at h
    split at h
    · exact Except.noConfusion h
    · cases h
      intro q hq
      rcases List.mem_append.mp hq with hq | hq
      · have hmem := (List.mem_filter.mp hq).1
        have hne : q.id ≠ p.id := by simpa using (List.mem_filter.mp hq).2
        obtain ⟨v, hv, hvid, hvpkg⟩ := hlat q hmem
        refine ⟨v, ?_, hvid, hvpkg⟩
        apply List.mem_append_left
        apply List.mem_filter.mpr
        refine ⟨hv, ?_⟩
        simp [hvpkg, hne]
      · simp only [List.mem_singleton] at hq
        subst hq
        refine ⟨{ latest with package_id := p.id }, ?_, rfl, rfl⟩
        apply List.mem_append_right
        exact List.mem_map_of_mem _ (maxVersion_mem hm)

theorem latestOk_deletePackage {db db' : Db} {t : Nat}
    (hlat : latestOk db) (h : deletePackage db t = .ok db') : latestOk db' := by
  unfold deletePackage at h
  cases h
  intro q hq
  have hmem := (List.mem_filter.mp hq).1
  have hne : q.id ≠ t := by simpa using (List.mem_filter.mp hq).2
  obtain ⟨v, hv, hvid, hvpkg⟩ := hlat q hmem
  refine ⟨v, ?_, hvid, hvpkg⟩
  apply List.mem_filter.mpr
  refine ⟨hv, ?_⟩
  simp [hvpkg, hne]

/-- C3: in every database state reachable through the catalog/profile write
APIs, every package row's `latest_version_id` refers to an existing version
row whose `package_id` equals that package's id; and directly after
`upsertPackage`, the referenced version is one of the package's versions
with the greatest `(major, minor, patch)` lexicographic triple. -/
theorem c3_latest_version_invariant :
    (∀ db, Reachable db → latestOk db) ∧
    (∀ db p vs db', upsertPackage db p vs = .ok db' →
        ∀ q ∈ db'.packages, q.id = p.id →
          ∃ v ∈ db'.versions, v.package_id = p.id ∧ v.id = q.latest_version_id ∧
            ∀ w ∈ db'.versions, w.package_id = p.id →
              semverLe (vTriple w) (vTriple v) = true) := by
  constructor
  · intro db hreach
    induction hreach with
    | init =>
      intro q hq
      simp [initDb] at hq
    | upsert p vs hr hok ih => exact latestOk_upsert ih hok
    | delPackage t hr hok ih => exact latestOk_deletePackage ih hok
    | delGame t hr hok ih =>
      unfold deleteGame at hok
      split at hok
      · exact Except.noConfusion hok
      · cases hok
        exact ih
    | delProfile t hr hok ih =>
      unfold deleteProfile at hok
      cases hok
      exact ih
    | insDependency d hr hok ih =>
      unfold insertDependency at hok
      split at hok
      · exact Except.noConfusion hok
      · split at hok
        · exact Except.noConfusion hok
        · cases hok
          exact ih
  · intro db p vs db' h q hq hqid
    cases hm : maxVersion vs with
    | none =>
      simp only [upsertPackage, hm] at h
      exact Except.noConfusion h
    | some latest =>
      simp only [upsertPackage, hm] at h
      split at h
      · exact Except.noConfusion h
      · cases h
        rcases List.mem_append.mp hq with hq | hq
        · exfalso
          have := (List.mem_filter.mp hq).2
          simp [hqid] at this
        · simp only [List.mem_singleton] at hq
          subst hq
          refine ⟨{ latest with package_id := p.id }, ?_, rfl, rfl, ?_⟩
          · apply List.mem_append_right
            exact List.mem_map_of_mem _ (maxVersion_mem hm)
          · intro w hw hwpkg
            rcases List.mem_append.mp hw with hw | hw
            · exfalso
              have := (List.mem_filter.mp hw).2
              simp [hwpkg] at this
            · obtain ⟨u, hu, hue⟩ := List.mem_map.mp hw
              have hvt : vTriple w = vTriple u := by
                rw [← hue]
                rfl
              show semverLe (vTriple w) (vTriple latest) = true
              rw [hvt]
              exact maxVersion_ge hm u hu

def c3Pkg : PackageRow :=
  ⟨7, "M", "a", "d", 0, false, false, false, 0, 0, none, 0, 1⟩

def c3NewPkg : PackageRow :=
  { c3Pkg with latest_version_id := 101 }

def c3Vs : List VersionRow :=
  [⟨100, 0, 0, 0, 0, true, none, 1, 0, 0⟩, ⟨101, 0, 0, 0, 0, true, none, 1, 2, 3⟩]

def c3Db : Db :=
  { games := initDb.games,
    packages := [c3NewPkg],
    packages_fts := [projFts c3NewPkg],
    versions := [⟨100, 7, 0, 0, 0, true, none, 1, 0, 0⟩,
                 ⟨101, 7, 0, 0, 0, true, none, 1, 2, 3⟩],
    dependencies := [], profiles := [], profile_mods := [] }

theorem c3_latest_version_invariant_witness :
    latestOk c3Db ∧
    (∃ v ∈ c3Db.versions, v.package_id = c3Pkg.id ∧
        v.id = c3NewPkg.latest_version_id ∧
        ∀ w ∈ c3Db.versions, w.package_id = c3Pkg.id →
          semverLe (vTriple w) (vTriple v) = true) :=
  ⟨c3_latest_version_invariant.1 c3Db
      (Reachable.upsert c3Pkg c3Vs Reachable.init rfl),
   c3_latest_version_invariant.2 initDb c3Pkg c3Vs c3Db rfl c3NewPkg
      (by decide) rfl⟩

end Gale
